import Mathlib

/-!
Verification development for the `htree` repository (H-tree fractal growth
and rasterization).  The Rust sources embedded here are
`src/src/geometry.rs` (Point, Line and their operations) and
`src/src/fractals.rs` (the HTree growth engine and rasterizer).

Machine arithmetic is modelled as follows:
- `i32` values are exact integers (`Int`); wrap-around of `i32` arithmetic is
  not modelled, which is faithful on the coordinate ranges the program
  produces and on every concrete input evaluated below.
- `f64` values are modelled by `Htree.F64`: IEEE-754 special values (NaN,
  signed infinities, signed zeros) are represented exactly and finite values
  carry an exact rational magnitude.  Finite arithmetic is exact (53-bit
  rounding is not modelled); every concrete computation evaluated in the
  theorems below is exact in IEEE-754 double precision (zeros, small
  integers, and NaN/infinity propagation), where the model and `f64` agree.
-/

set_option maxRecDepth 1000000

namespace Htree

/-- Exact rational numbers as unreduced numerator/denominator pairs.  All
operations keep the denominator positive, and no normalisation is performed,
so arithmetic is plain integer arithmetic that evaluates inside the kernel.
Used as the carrier of finite values of the `f64` model. -/
structure Q where
  n : Int
  d : Int

/-- Embed an integer as an exact rational. -/
def Q.ofInt (z : Int) : Q := ⟨z, 1⟩

/-- Zero test (the denominator is positive in every constructed value). -/
def Q.isZero (a : Q) : Bool := a.n == 0

/-- Negativity test (the denominator is positive in every constructed value). -/
def Q.isNeg (a : Q) : Bool := a.n < 0

/-- Exact addition of fractions. -/
def Q.add (a b : Q) : Q := ⟨a.n * b.d + b.n * a.d, a.d * b.d⟩

/-- Exact multiplication of fractions. -/
def Q.mul (a b : Q) : Q := ⟨a.n * b.n, a.d * b.d⟩

/-- Exact division of fractions, keeping the denominator positive.  Callers
only divide by nonzero values. -/
def Q.div (a b : Q) : Q :=
  if b.n < 0 then ⟨-(a.n * b.d), a.d * -b.n⟩ else ⟨a.n * b.d, a.d * b.n⟩

/-- Exact negation. -/
def Q.neg (a : Q) : Q := ⟨-a.n, a.d⟩

/-- Floor of an exact rational (the denominator is positive, so `Int.fdiv`
is the mathematical floor). -/
def Q.floor (a : Q) : Int := a.n.fdiv a.d

/-- Integer square root by halving the bit length: `sqrtAux fuel n` is the
floor of the square root of `n` whenever `n < 4 ^ fuel` (proved in
`sqrtAux_spec`).  Structural recursion on `fuel` keeps it kernel-reducible. -/
def sqrtAux : Nat → Nat → Nat
  | 0, _ => 0
  | fuel + 1, n =>
    let r := 2 * sqrtAux fuel (n / 4)
    if (r + 1) * (r + 1) ≤ n then r + 1 else r

/-- Integer square root with enough fuel for numbers below `4 ^ 128 = 2 ^ 256`,
far beyond every value producible from `i32` inputs (which stay below
`2 ^ 63`). -/
def natSqrt (n : Nat) : Nat := sqrtAux 128 n

/-- Model of Rust `f64`.  `fin s m` denotes the finite value `(-1)^s * m`
with magnitude `m ≥ 0`; `fin true 0` is `-0.0`.  `inf true` is negative
infinity. -/
inductive F64 where
  | nan : F64
  | inf : Bool → F64
  | fin : Bool → Q → F64

/-- Signed rational value of a sign/magnitude pair. -/
def F64.sval (s : Bool) (m : Q) : Q := if s then m.neg else m

/-- Build a finite double from a signed exact rational (sign-magnitude
split; a zero result gets the positive sign, as IEEE-754 round-to-nearest
addition does for a zero sum of nonzero operands). -/
def F64.mk (q : Q) : F64 := if q.isNeg then .fin true q.neg else .fin false q

/-- Rust `f64::from(i32)`, which is exact. -/
def F64.ofInt (z : Int) : F64 := F64.mk (Q.ofInt z)

/-- Rust `f64::is_infinite`. -/
def F64.isInfinite : F64 → Bool
  | .inf _ => true
  | _ => false

/-- True exactly on finite values (including signed zeros). -/
def F64.isFinite : F64 → Bool
  | .fin _ _ => true
  | _ => false

/-- IEEE-754 negation (sign flip). -/
def F64.neg : F64 → F64
  | .nan => .nan
  | .inf s => .inf (!s)
  | .fin s m => .fin (!s) m

/-- IEEE-754 addition on the model, exact on finite values.  Signed-zero
rules follow round-to-nearest: a zero sum of nonzero operands is `+0.0`,
and `-0.0 + -0.0 = -0.0`. -/
def F64.add : F64 → F64 → F64
  | .nan, _ => .nan
  | _, .nan => .nan
  | .inf s, .inf t => if s = t then .inf s else .nan
  | .inf s, .fin _ _ => .inf s
  | .fin _ _, .inf t => .inf t
  | .fin s m, .fin t k =>
    if m.isZero && k.isZero then .fin (s && t) (Q.ofInt 0)
    else F64.mk ((F64.sval s m).add (F64.sval t k))

/-- IEEE-754 subtraction, `a - b = a + (-b)`. -/
def F64.sub (a b : F64) : F64 := a.add b.neg

/-- IEEE-754 multiplication on the model, exact on finite values.  The sign
is the exclusive or of the signs; `∞ * 0` is NaN. -/
def F64.mul : F64 → F64 → F64
  | .nan, _ => .nan
  | _, .nan => .nan
  | .inf s, .inf t => .inf (xor s t)
  | .inf s, .fin t k => if k.isZero then .nan else .inf (xor s t)
  | .fin s m, .inf t => if m.isZero then .nan else .inf (xor s t)
  | .fin s m, .fin t k => .fin (xor s t) (m.mul k)

/-- IEEE-754 division on the model, exact on finite values: `0/0` and `∞/∞`
are NaN, a nonzero finite value divided by a (signed) zero is a (signed)
infinity, and a finite value divided by an infinity is a signed zero. -/
def F64.div : F64 → F64 → F64
  | .nan, _ => .nan
  | _, .nan => .nan
  | .inf _, .inf _ => .nan
  | .inf s, .fin t _ => .inf (xor s t)
  | .fin s _, .inf t => .fin (xor s t) (Q.ofInt 0)
  | .fin s m, .fin t k =>
    if k.isZero then (if m.isZero then .nan else .inf (xor s t))
    else .fin (xor s t) (m.div k)

/-- Rust `f64::powi(2)`, i.e. squaring (one exact multiplication in the
model; the value is finite-squared or follows the NaN/infinity rules). -/
def F64.powi2 (a : F64) : F64 := a.mul a

/-- IEEE-754 square root on the model: NaN for NaN and negative inputs,
`sqrt ±0 = ±0`, `sqrt ∞ = ∞`; on positive rationals it is exact whenever
the stored numerator and denominator are perfect squares (the only finite
nonzero case any theorem below evaluates is the constant `sqrt 2`), and
otherwise returns the square root rounded down to a multiple of `2⁻⁵²`,
which agrees with the correctly rounded IEEE result to within one unit in
the last place (only its sign and nonzero-ness are ever observable below). -/
def F64.sqrt : F64 → F64
  | .nan => .nan
  | .inf s => if s then .nan else .inf false
  | .fin s m =>
    if m.isZero then .fin s m
    else if s then .nan
    else
      let nn := m.n.toNat
      let dn := m.d.toNat
      if (natSqrt nn * natSqrt nn == nn) && (natSqrt dn * natSqrt dn == dn) then
        .fin false ⟨(natSqrt nn : Int), (natSqrt dn : Int)⟩
      else
        .fin false ⟨(natSqrt (nn * 4 ^ 52 / dn) : Int), 2 ^ 52⟩

/-- Rust `f64::round`: round half away from zero (applied to the magnitude,
so `floor (m + 1/2)` on the magnitude with the sign reattached). -/
def F64.round : F64 → F64
  | .nan => .nan
  | .inf s => .inf s
  | .fin s m => .fin s (Q.ofInt ((m.add ⟨1, 2⟩).floor))

/-- Rust `as i32` cast of an `f64` (saturating semantics, Rust ≥ 1.45):
NaN becomes 0, infinities become the extreme `i32` values, and finite
values are truncated toward zero and clamped to the `i32` range. -/
def F64.toI32 : F64 → Int
  | .nan => 0
  | .inf s => if s then -(2 ^ 31) else 2 ^ 31 - 1
  | .fin s m =>
    let t := m.floor
    let v := if s then -t else t
    max (-(2 ^ 31)) (min (2 ^ 31 - 1) v)

/-- Integer 2D coordinate, from `Point` in src/src/geometry.rs (fields
`x y : i32`). -/
structure Point where
  x : Int
  y : Int
  deriving DecidableEq

/-- `Point::is_inside` from src/src/geometry.rs lines 17-19:
`self.x >= min && self.x < max && self.y >= min && self.y < max`. -/
def Point.isInside (p : Point) (lo hi : Int) : Bool :=
  decide (lo ≤ p.x) && decide (p.x < hi) && decide (lo ≤ p.y) && decide (p.y < hi)

/-- Ordered pair of endpoints, from `Line` in src/src/geometry.rs.  Equality
and hashing are by the exact `(p, q)` pair, as in the source. -/
structure Line where
  p : Point
  q : Point
  deriving DecidableEq

/-- `Line::gradient` from src/src/geometry.rs lines 76-80:
`(q.y - p.y) as f64 / (q.x - p.x) as f64`. -/
def Line.gradient (l : Line) : F64 :=
  (F64.ofInt (l.q.y - l.p.y)).div (F64.ofInt (l.q.x - l.p.x))

/-- `Line::len` from src/src/geometry.rs lines 82-87:
`((x.pow(2) + y.pow(2)) as f64).sqrt() as i32` with `x`, `y` the absolute
coordinate differences.  When the `i32` sum `n = x² + y²` does not overflow
it satisfies `n < 2³¹ < 2⁵²`, so the `as f64` conversion is exact, the IEEE
square root is correctly rounded and, because `n < 2⁵²` puts the true root
more than half an ulp away from the neighbouring integers unless it is an
integer exactly, the final truncating `as i32` cast yields exactly the
integer square root `⌊√n⌋`.  The embedding therefore computes `⌊√n⌋`
directly. -/
def Line.len (l : Line) : Int :=
  (natSqrt ((l.q.x - l.p.x).natAbs ^ 2 + (l.q.y - l.p.y).natAbs ^ 2) : Int)

/-- Octant classification used by the Bresenham iterator, following the
`line_drawing` crate's `Octant::new` (sources of the external crate are not
part of this repository; modelled from the spec's description of
`points_along`). -/
def octantOf (dx dy : Int) : Nat :=
  let a : Int × Int × Nat := if dy < 0 then (-dx, -dy, 4) else (dx, dy, 0)
  let b : Int × Int × Nat := if a.1 < 0 then (a.2.1, -a.1, a.2.2 + 2) else a
  if b.1 < b.2.1 then b.2.2 + 1 else b.2.2

/-- Map a point into octant-0 coordinates (`Octant::to`). -/
def toOct (o : Nat) (pt : Int × Int) : Int × Int :=
  match o with
  | 0 => (pt.1, pt.2)
  | 1 => (pt.2, pt.1)
  | 2 => (pt.2, -pt.1)
  | 3 => (-pt.1, pt.2)
  | 4 => (-pt.1, -pt.2)
  | 5 => (-pt.2, -pt.1)
  | 6 => (-pt.2, pt.1)
  | _ => (pt.1, -pt.2)

/-- Map a point back from octant-0 coordinates (`Octant::from`, the inverse
of `toOct`). -/
def fromOct (o : Nat) (pt : Int × Int) : Int × Int :=
  match o with
  | 0 => (pt.1, pt.2)
  | 1 => (pt.2, pt.1)
  | 2 => (-pt.2, pt.1)
  | 3 => (-pt.1, pt.2)
  | 4 => (-pt.1, -pt.2)
  | 5 => (-pt.2, -pt.1)
  | 6 => (pt.2, -pt.1)
  | _ => (pt.1, -pt.2)

/-- Core Bresenham loop in octant-0 coordinates (`dx ≥ dy ≥ 0`): emit the
current point, then advance `x` (and `y` when the error term is
nonnegative), for `dx + 1` steps, so both endpoints are included. -/
def bresCore (dx dy : Int) : Nat → Int → Int → Int → List (Int × Int)
  | 0, _, _, _ => []
  | steps + 1, x, y, e =>
    (x, y) ::
      (if 0 ≤ e then bresCore dx dy steps (x + 1) (y + 1) (e - dx + dy)
       else bresCore dx dy steps (x + 1) y (e + dy))

/-- Modelled from the spec: `Line::points_along` (src/src/geometry.rs lines
89-92) delegates to the external `line_drawing` crate's `Bresenham`
iterator, whose source is not part of this repository.  Per the spec it
produces every integer pixel coordinate on the segment by Bresenham's
algorithm, inclusive of both endpoints, in order from `p` to `q`. -/
def Line.points_along (l : Line) : List Point :=
  let o := octantOf (l.q.x - l.p.x) (l.q.y - l.p.y)
  let s := toOct o (l.p.x, l.p.y)
  let e := toOct o (l.q.x, l.q.y)
  let dx := e.1 - s.1
  let dy := e.2 - s.2
  (bresCore dx dy (dx + 1).toNat s.1 s.2 (dy - dx)).map
    (fun pt => let r := fromOct o pt; ⟨r.1, r.2⟩)

/-- The constant `2_f64.sqrt()` appearing in `HTree::two_new`
(src/src/fractals.rs line 48). -/
def sqrt2 : F64 := F64.sqrt (F64.ofInt 2)

/-- The vertical-construction branch of `Line::new_with_center`
(src/src/geometry.rs lines 37-44): for an infinite gradient the result is a
vertical segment centered at `p`, with `l = len.round() as i32` and
endpoints at `p.y ∓ l/2` (truncating `i32` division). -/
def vertCase (p : Point) (len : F64) : Line :=
  let l : Int := len.round.toI32
  ⟨⟨p.x, p.y - l.tdiv 2⟩, ⟨p.x, p.y + l.tdiv 2⟩⟩

/-- The nested `divide` helper of `Line::new_with_center`
(src/src/geometry.rs lines 60-62): `(p/q).round() as i32`. -/
def divide (a b : F64) : Int := ((a.div b).round).toI32

/-- `Line::new_with_center` from src/src/geometry.rs lines 35-74.  The
infinite-gradient case takes the vertical branch; otherwise both endpoints
are solved analytically from the center, gradient and length, with each
coordinate rounded to `i32` independently by `divide`. -/
def Line.new_with_center (p : Point) (m : F64) (len : F64) : Line :=
  if m.isInfinite then vertCase p len
  else
    let x := F64.ofInt p.x
    let y := F64.ofInt p.y
    let l := len.div (F64.ofInt 2)
    let l2_m2p1_ := ((l.powi2).mul ((m.powi2).add (F64.ofInt 1))).sqrt
    let m2xpx := ((m.powi2).mul x).add x
    let m2ypy := ((m.powi2).mul y).add y
    let m2p1 := (m.powi2).add (F64.ofInt 1)
    let a := l2_m2p1_.add m2xpx
    let b := (m.mul l2_m2p1_).add m2ypy
    let c := ((F64.ofInt (-1)).mul l2_m2p1_).add m2xpx
    let d := (((F64.ofInt (-1)).mul m).mul l2_m2p1_).add m2ypy
    ⟨⟨divide a m2p1, divide b m2p1⟩, ⟨divide c m2p1, divide d m2p1⟩⟩

/-- The slope passed to both `new_with_center` calls in `HTree::two_new`
(src/src/fractals.rs lines 50-51): `gradient_change - 1.0 / line.gradient()`. -/
def sproutSlope (gc : F64) (l : Line) : F64 := gc.sub ((F64.ofInt 1).div l.gradient)

/-- The length passed to both `new_with_center` calls in `HTree::two_new`
(src/src/fractals.rs line 48): `f64::from(line.len()) / 2_f64.sqrt()`. -/
def sproutLen (l : Line) : F64 := (F64.ofInt l.len).div sqrt2

/-- `HTree::two_new` from src/src/fractals.rs lines 47-53: two children,
one centered at each endpoint of the parent, both with the sprout slope and
the sprout length. -/
def two_new (line : Line) (gradient_change : F64) : List Line :=
  [Line.new_with_center line.p (sproutSlope gradient_change line) (sproutLen line),
   Line.new_with_center line.q (sproutSlope gradient_change line) (sproutLen line)]

/-- The fractal growth state, from `HTree` in src/src/fractals.rs lines 5-10:
two `HashSet<Line>` fields and the fixed rotation parameter.  `HashSet` is
modelled by `Finset` (contents-only semantics, matching the source's
order-independent set operations). -/
structure HTree where
  older : Finset Line
  newer : Finset Line
  gradient_change : F64

/-- `HTree::new` from src/src/fractals.rs lines 13-22: empty `older`, and
`newer` holding the single seed line
`Line::new_with_center(p, gradient_change, f64::from(length))`. -/
def HTree.new (p : Point) (length : Int) (gradient_change : F64) : HTree :=
  { older := ∅
    newer := {Line.new_with_center p gradient_change (F64.ofInt length)}
    gradient_change := gradient_change }

/-- One iteration of the growth loop in `HTree::level_added`
(src/src/fractals.rs lines 30-38): `older` absorbs `newer` by set union, and
the new frontier is the deduplicated union of `two_new` over the previous
frontier only. -/
def stepF (gc : F64) (s : Finset Line × Finset Line) : Finset Line × Finset Line :=
  (s.1 ∪ s.2, s.2.biUnion fun l => (two_new l gc).toFinset)

/-- `HTree::level_added` from src/src/fractals.rs lines 25-44: apply the
growth step `n` times (`for _ in 0..n`, so a non-positive `n : i32` runs
zero iterations), keeping `gradient_change`. -/
def HTree.level_added (t : HTree) (n : Int) : HTree :=
  { older := ((stepF t.gradient_change)^[n.toNat] (t.older, t.newer)).1
    newer := ((stepF t.gradient_change)^[n.toNat] (t.older, t.newer)).2
    gradient_change := t.gradient_change }

/-- Modelled from the spec: the crate root declaring the module tree and the
constant `crate::NUM_PIXELS` (used as the fixed size of the render buffer in
`HTree::render`) is not under src/.  The spec's scenarios and the flat
prototype `src/main.rs` both use a 256×256 canvas (`IMGWID = 256`,
`IMGPX = IMGWID * IMGWID`), so the constant is `256 * 256 = 65536`. -/
def numPixels : Nat := 256 * 256

/-- The surviving pixel indices a single line contributes in `HTree::render`
(src/src/fractals.rs lines 58-66): its Bresenham points, filtered by
`is_inside(0, img_width as i32)`, mapped to `(p.y * img_width + p.x) as
usize` (the filtered points have nonnegative coordinates, so the cast is
exact), deduplicated into a set. -/
def Line.pixelIdx (l : Line) (w : Nat) : Finset Nat :=
  ((l.points_along.filter fun p => p.isInside 0 (w : Int)).map
    fun p => (p.y * (w : Int) + p.x).toNat).toFinset

/-- The deduplicated set of surviving pixel indices of `HTree::render`
(src/src/fractals.rs lines 56-66): the union `older ∪ newer`, each line
contributing its filtered, mapped Bresenham points. -/
def HTree.pixels (t : HTree) (w : Nat) : Finset Nat :=
  (t.older ∪ t.newer).biUnion fun l => l.pixelIdx w

/-- `HTree::render` from src/src/fractals.rs lines 55-74: union `older` and
`newer`, collect the deduplicated set of surviving pixel indices, and write
`1` at each of them into an all-zero buffer of fixed length
`crate::NUM_PIXELS`.  The `HashSet` iteration order of the write loop is
unobservable (idempotent writes into distinct cells), so the model iterates
in sorted order.  The Rust write `canvas[p] = 1` panics when an index
reaches past the fixed buffer; that is modelled by returning `none`. -/
def HTree.render (t : HTree) (w : Nat) : Option (List Nat) :=
  if ∀ i ∈ t.pixels w, i < numPixels then
    some (((t.pixels w).sort (· ≤ ·)).foldl (fun c i => c.set i 1)
      (List.replicate numPixels 0))
  else none

/-! ## Specification-side definitions (for refutation only) -/

/-- Writing `1` at a list of positions preserves the buffer length. -/
lemma foldl_set_length (l : List Nat) (c : List Nat) :
    (l.foldl (fun cv j => cv.set j 1) c).length = c.length := by
  induction l generalizing c with
  | nil => rfl
  | cons j t ih => simp [List.foldl_cons, ih, List.length_set]

/-- A successful render is exactly the in-bounds guard plus the write loop. -/
lemma render_eq_some {t : HTree} {w : Nat} {buf : List Nat}
    (h : t.render w = some buf) :
    (∀ i ∈ t.pixels w, i < numPixels) ∧
    buf = ((t.pixels w).sort (· ≤ ·)).foldl (fun c i => c.set i 1)
      (List.replicate numPixels 0) := by
  by_cases hall : ∀ i ∈ t.pixels w, i < numPixels
  · refine ⟨hall, ?_⟩
    rw [HTree.render, if_pos hall] at h
    exact (Option.some_injective _ h).symm
  · rw [HTree.render, if_neg hall] at h
    exact absurd h (Option.noConfusion)

/-- Every buffer a successful render returns has the fixed length
`numPixels`, independently of the requested canvas width. -/
lemma render_length {t : HTree} {w : Nat} {buf : List Nat}
    (h : t.render w = some buf) : buf.length = numPixels := by
  obtain ⟨-, hbuf⟩ := render_eq_some h
  rw [hbuf, foldl_set_length, List.length_replicate]

/-- Adding NaN to anything yields NaN. -/
lemma add_nan (x : F64) : x.add F64.nan = F64.nan := by
  cases x <;> rfl

/-- Adding anything to NaN yields NaN. -/
lemma nan_add (x : F64) : F64.nan.add x = F64.nan := by
  cases x <;> rfl

/-- Multiplying NaN by anything yields NaN. -/
lemma nan_mul (x : F64) : F64.nan.mul x = F64.nan := by
  cases x <;> rfl

/-- Multiplying anything by NaN yields NaN. -/
lemma mul_nan (x : F64) : x.mul F64.nan = F64.nan := by
  cases x <;> rfl

/-- The square root of NaN is NaN. -/
lemma sqrt_nan : F64.sqrt F64.nan = F64.nan := rfl

/-- The `divide` rounding helper maps the NaN-over-NaN case to 0, through
`0/0 = NaN`, `NaN.round() = NaN` and the saturating `NaN as i32 = 0`. -/
lemma divide_nan_nan : divide F64.nan F64.nan = 0 := rfl

/-- With a NaN gradient, `new_with_center` takes the general branch and
every coordinate computation propagates NaN, so both endpoint coordinates
are produced by the saturating `NaN as i32 = 0` cast: the result is the
zero-length line at the origin, for every center and every length. -/
lemma nwc_nan (c : Point) (len : F64) :
    Line.new_with_center c F64.nan len = ⟨⟨0, 0⟩, ⟨0, 0⟩⟩ := by
  simp only [Line.new_with_center, F64.isInfinite, F64.powi2, nan_mul, mul_nan,
    nan_add, add_nan, sqrt_nan, divide_nan_nan, Bool.false_eq_true, if_false]

/-- The gradient of a horizontal non-degenerate line is an exact signed
zero. -/
lemma gradient_horizontal {l : Line} (hy : l.q.y = l.p.y) (hx : l.q.x ≠ l.p.x) :
    ∃ s d, l.gradient = F64.fin s ⟨0, d⟩ := by
  have hd : l.q.x - l.p.x ≠ 0 := sub_ne_zero.mpr hx
  rw [Line.gradient, hy, sub_self]
  rw [show F64.ofInt 0 = F64.fin false ⟨0, 1⟩ from rfl]
  by_cases hneg : l.q.x - l.p.x < 0
  · refine ⟨true, l.p.x - l.q.x, ?_⟩
    have h2 : F64.ofInt (l.q.x - l.p.x) = F64.fin true ⟨l.p.x - l.q.x, 1⟩ := by
      rw [F64.ofInt, F64.mk,
        if_pos (by simp only [Q.isNeg, Q.ofInt, decide_eq_true_eq]; omega)]
      show F64.fin true ⟨-(l.q.x - l.p.x), 1⟩ = _
      rw [neg_sub]
    rw [h2]
    simp only [F64.div]
    rw [if_neg (by simp only [Q.isZero, beq_iff_eq]; omega)]
    simp only [Q.div]
    rw [if_neg (by omega)]
    simp
  · refine ⟨false, l.q.x - l.p.x, ?_⟩
    have h2 : F64.ofInt (l.q.x - l.p.x) = F64.fin false ⟨l.q.x - l.p.x, 1⟩ := by
      rw [F64.ofInt, F64.mk,
        if_neg (by simp only [Q.isNeg, Q.ofInt, decide_eq_true_eq]; omega)]
      rfl
    rw [h2]
    simp only [F64.div]
    rw [if_neg (by simp only [Q.isZero, beq_iff_eq]; omega)]
    simp only [Q.div]
    rw [if_neg (by omega)]
    simp

/-- For a finite `gradient_change` and a horizontal non-degenerate parent,
the sprout slope `gradient_change - 1/gradient` is an infinity (the signal
taken by the vertical branch of `new_with_center`). -/
lemma slope_of_zero_gradient {l : Line} (gs : Bool) (gm : Q)
    (hy : l.q.y = l.p.y) (hx : l.q.x ≠ l.p.x) :
    ∃ b, sproutSlope (F64.fin gs gm) l = F64.inf b := by
  obtain ⟨s, d, hg⟩ := gradient_horizontal hy hx
  rw [sproutSlope, hg]
  have hrec : (F64.ofInt 1).div (F64.fin s ⟨0, d⟩) = F64.inf s := by
    rw [show F64.ofInt 1 = F64.fin false ⟨1, 1⟩ from rfl]
    simp [F64.div, Q.isZero]
  rw [hrec]
  exact ⟨!s, rfl⟩

/-! ## Claims -/

/-- C6: advancing by 0 levels yields a state whose older set, newer set and
gradient_change all equal the input state's (identity law): the
`for _ in 0..0` loop of `level_added` runs no iteration. -/
theorem c6_advance_zero_identity (t : HTree) :
    (t.level_added 0).older = t.older ∧ (t.level_added 0).newer = t.newer ∧
    (t.level_added 0).gradient_change = t.gradient_change :=
  ⟨rfl, rfl, rfl⟩

/-- C10: for every level count `n` (positive or not), the state returned by
`level_added` carries the very same `gradient_change` as the input state;
only the `older` and `newer` sets are recomputed. -/
theorem c10_gradient_change_frame (t : HTree) (n : Int) :
    (t.level_added n).gradient_change = t.gradient_change :=
  rfl

/-- C8: `HTree::new` produces an empty `older` set and a `newer` set holding
exactly the single seed line `Line::new_with_center(seed_center,
gradient_change, seed_length)`; in particular the slope handed to the seed
construction is the `gradient_change` parameter itself. -/
theorem c8_new_seed (c : Point) (len : Int) (gc : F64) :
    (HTree.new c len gc).older = ∅ ∧
    (HTree.new c len gc).newer = {Line.new_with_center c gc (F64.ofInt len)} ∧
    (HTree.new c len gc).gradient_change = gc :=
  ⟨rfl, rfl, rfl⟩

/-- C5: advancing by `n ≥ 0` levels and then by `m ≥ 0` levels equals
advancing by `n + m` levels in one call, on the `older` and `newer` sets
(the growth step is iterated, and the iterated `gradient_change` is the
same in both runs). -/
theorem c5_advance_compose (t : HTree) (n m : Int) (hn : 0 ≤ n) (hm : 0 ≤ m) :
    ((t.level_added n).level_added m).older = (t.level_added (n + m)).older ∧
    ((t.level_added n).level_added m).newer = (t.level_added (n + m)).newer := by
  have hadd : (n + m).toNat = m.toNat + n.toNat := by omega
  constructor <;>
    simp [HTree.level_added, hadd, Function.iterate_add_apply]

/-- Witness for C5 at the concrete state `new((0,0), 0, 0.0)` with
`n = m = 1`. -/
theorem c5_witness :
    (0 : Int) ≤ 1 ∧
    (((HTree.new ⟨0, 0⟩ 0 (F64.fin false ⟨0, 1⟩)).level_added 1).level_added 1).older
      = ((HTree.new ⟨0, 0⟩ 0 (F64.fin false ⟨0, 1⟩)).level_added 2).older ∧
    (((HTree.new ⟨0, 0⟩ 0 (F64.fin false ⟨0, 1⟩)).level_added 1).level_added 1).newer
      = ((HTree.new ⟨0, 0⟩ 0 (F64.fin false ⟨0, 1⟩)).level_added 2).newer := by
  have h := c5_advance_compose (HTree.new ⟨0, 0⟩ 0 (F64.fin false ⟨0, 1⟩)) 1 1
    (by decide) (by decide)
  norm_num at h
  exact ⟨by decide, h.1, h.2⟩

/-- C1 (amended): the byte buffer returned by a successful `render` always
has the fixed length `crate::NUM_PIXELS = 256 * 256`, independent of the
`canvas_width` argument; it equals `canvas_width * canvas_width` only for
`canvas_width = 256`. -/
theorem c1_render_fixed_length (t : HTree) (w : Nat) (buf : List Nat)
    (h : t.render w = some buf) : buf.length = numPixels :=
  render_length h

/-- Witness for C1 (amended) at the fresh state `new((0,0), 0, 0.0)` rendered
at width 256. -/
theorem c1_witness :
    ((HTree.new ⟨0, 0⟩ 0 (F64.fin false ⟨0, 1⟩)).render 256).map List.length
      = some numPixels := by
  rcases h : (HTree.new ⟨0, 0⟩ 0 (F64.fin false ⟨0, 1⟩)).render 256 with _ | buf
  · exact absurd h (by decide)
  · rw [Option.map_some']
    rw [c1_render_fixed_length _ _ _ h]

/-- Counterexample to C1 as stated: rendering the fresh state
`new((0,0), 0, 0.0)` at `canvas_width = 1` returns a buffer of length
`65536`, not `1 * 1`. -/
theorem c1_counterexample :
    ((HTree.new ⟨0, 0⟩ 0 (F64.fin false ⟨0, 1⟩)).render 1).map List.length
      ≠ some (1 * 1) := by
  rcases h : (HTree.new ⟨0, 0⟩ 0 (F64.fin false ⟨0, 1⟩)).render 1 with _ | buf
  · exact absurd h (by decide)
  · rw [Option.map_some', render_length h]
    intro hc
    exact absurd (Option.some_injective _ hc) (by decide)

/-- C3 (amended): the freshly constructed state has disjoint `older` and
`newer` (its `older` is empty), and this persists through `advance` with a
non-positive level count (which runs zero growth iterations); advancing by
one or more levels does not preserve disjointness in general (see the
counterexample at the degenerate zero-length seed). -/
theorem c3_fresh_disjoint (c : Point) (len : Int) (gc : F64) (n : Int)
    (hn : n ≤ 0) :
    Disjoint ((HTree.new c len gc).level_added n).older
      ((HTree.new c len gc).level_added n).newer := by
  have h0 : n.toNat = 0 := Int.toNat_of_nonpos hn
  simp [HTree.level_added, h0, HTree.new]

/-- Witness for C3 (amended) at the seed `new((0,0), 0, 0.0)` with `n = 0`. -/
theorem c3_witness :
    (0 : Int) ≤ 0 ∧
    Disjoint ((HTree.new ⟨0, 0⟩ 0 (F64.fin false ⟨0, 1⟩)).level_added 0).older
      ((HTree.new ⟨0, 0⟩ 0 (F64.fin false ⟨0, 1⟩)).level_added 0).newer :=
  ⟨by decide, c3_fresh_disjoint ⟨0, 0⟩ 0 (F64.fin false ⟨0, 1⟩) 0 (by decide)⟩

/-- Counterexample to C3 as stated: advancing the freshly constructed state
`new((0,0), 0, 0.0)` by one level yields `older = newer = {(0,0)-(0,0)}`.
The zero-length seed line has gradient `0/0 = NaN`; both its children
collapse (through the NaN-propagating construction and the saturating
`NaN as i32 = 0` casts) to the line `(0,0)-(0,0)`, which is simultaneously
moved into `older` and regenerated into `newer`. -/
theorem c3_counterexample :
    ¬ Disjoint ((HTree.new ⟨0, 0⟩ 0 (F64.fin false ⟨0, 1⟩)).level_added 1).older
      ((HTree.new ⟨0, 0⟩ 0 (F64.fin false ⟨0, 1⟩)).level_added 1).newer := by
  intro hd
  have h1 : (⟨⟨0, 0⟩, ⟨0, 0⟩⟩ : Line)
      ∈ ((HTree.new ⟨0, 0⟩ 0 (F64.fin false ⟨0, 1⟩)).level_added 1).older := by decide
  have h2 : (⟨⟨0, 0⟩, ⟨0, 0⟩⟩ : Line)
      ∈ ((HTree.new ⟨0, 0⟩ 0 (F64.fin false ⟨0, 1⟩)).level_added 1).newer := by decide
  exact (Finset.disjoint_left.mp hd h1) h2

/-- C9: for a zero-length line (both endpoints equal), the gradient is the
`0/0` NaN sentinel, the length is 0, and sprouting is total, producing two
well-defined `Line` values (both collapse to `(0,0)-(0,0)` through NaN
propagation and the saturating NaN-to-`i32` casts); nothing panics, every
operation is a total function in the model. -/
theorem c9_degenerate_total (p : Point) (gc : F64) :
    (⟨p, p⟩ : Line).gradient = F64.nan ∧ (⟨p, p⟩ : Line).len = 0 ∧
    two_new ⟨p, p⟩ gc = [⟨⟨0, 0⟩, ⟨0, 0⟩⟩, ⟨⟨0, 0⟩, ⟨0, 0⟩⟩] := by
  have hgrad : (⟨p, p⟩ : Line).gradient = F64.nan := by
    show (F64.ofInt (p.y - p.y)).div (F64.ofInt (p.x - p.x)) = F64.nan
    rw [sub_self, sub_self]
    rfl
  have hlen : (⟨p, p⟩ : Line).len = 0 := by
    show (natSqrt ((p.x - p.x).natAbs ^ 2 + (p.y - p.y).natAbs ^ 2) : Int) = 0
    rw [sub_self, sub_self]
    decide
  have hs : sproutSlope gc ⟨p, p⟩ = F64.nan := by
    rw [sproutSlope, hgrad]
    rw [show (F64.ofInt 1).div F64.nan = F64.nan from rfl]
    exact add_nan gc
  refine ⟨hgrad, hlen, ?_⟩
  show [Line.new_with_center p (sproutSlope gc ⟨p, p⟩) (sproutLen ⟨p, p⟩),
    Line.new_with_center p (sproutSlope gc ⟨p, p⟩) (sproutLen ⟨p, p⟩)] = _
  rw [hs, nwc_nan]

/-- C4: sprouting produces exactly two children, one built by
`new_with_center` at `line.p` and one at `line.q`, both with slope
`gradient_change - 1/gradient(line)` and target length `len(line)/√2`; and
when the parent's gradient is exactly zero (horizontal non-degenerate line)
and `gradient_change` is finite, the slope passed is infinite, so both
children are built by the vertical-construction branch of
`new_with_center`. -/
theorem c4_sprout_children (l : Line) (gc : F64) :
    two_new l gc = [Line.new_with_center l.p (sproutSlope gc l) (sproutLen l),
      Line.new_with_center l.q (sproutSlope gc l) (sproutLen l)] ∧
    (gc.isFinite = true → l.q.y = l.p.y → l.q.x ≠ l.p.x →
      (sproutSlope gc l).isInfinite = true ∧
      two_new l gc = [vertCase l.p (sproutLen l), vertCase l.q (sproutLen l)]) := by
  refine ⟨rfl, fun hfin hy hx => ?_⟩
  obtain ⟨gs, gm, rfl⟩ : ∃ s m, gc = F64.fin s m := by
    cases gc with
    | fin s m => exact ⟨s, m, rfl⟩
    | nan => simp [F64.isFinite] at hfin
    | inf s => simp [F64.isFinite] at hfin
  obtain ⟨b, hb⟩ := slope_of_zero_gradient gs gm hy hx
  refine ⟨?_, ?_⟩
  · rw [hb]
    rfl
  · show [Line.new_with_center l.p (sproutSlope (F64.fin gs gm) l) (sproutLen l),
      Line.new_with_center l.q (sproutSlope (F64.fin gs gm) l) (sproutLen l)] = _
    rw [hb]
    simp [Line.new_with_center, F64.isInfinite]

/-- Witness for C4 at the horizontal line from (0,0) to (4,0) with
`gradient_change = 0.0`: the slope passed is infinite and both children are
the vertical segments (0,-1)-(0,1) and (4,-1)-(4,1). -/
theorem c4_witness :
    (F64.fin false ⟨0, 1⟩).isFinite = true ∧
    (⟨⟨0, 0⟩, ⟨4, 0⟩⟩ : Line).q.y = (⟨⟨0, 0⟩, ⟨4, 0⟩⟩ : Line).p.y ∧
    (sproutSlope (F64.fin false ⟨0, 1⟩) ⟨⟨0, 0⟩, ⟨4, 0⟩⟩).isInfinite = true ∧
    two_new ⟨⟨0, 0⟩, ⟨4, 0⟩⟩ (F64.fin false ⟨0, 1⟩)
      = [vertCase ⟨0, 0⟩ (sproutLen ⟨⟨0, 0⟩, ⟨4, 0⟩⟩),
         vertCase ⟨4, 0⟩ (sproutLen ⟨⟨0, 0⟩, ⟨4, 0⟩⟩)] := by
  have h := (c4_sprout_children ⟨⟨0, 0⟩, ⟨4, 0⟩⟩ (F64.fin false ⟨0, 1⟩)).2
    (by rfl) (by rfl) (by decide)
  exact ⟨by rfl, by rfl, h.1, h.2⟩

end Htree
